import Mathlib

/-!
Verification of the chart/image rendering and market-summary pipeline of
`src/automation.js` (crypto-thread-automation).

JavaScript numbers are modelled by `JSNum` (NaN, the two infinities, and a
rational for every finite value); a possibly-`undefined` number is an
`Option JSNum`.  Fallible code (property access on `undefined`) returns
`Except String`.  The SVG string assembly is abstracted: each renderer
returns a record holding exactly the computed quantities that are
interpolated into the markup (heights, positions, css classes, label
texts, file names), in source order.
-/

/-- Model of a JavaScript number: NaN, +Infinity, -Infinity, or a finite
value (represented exactly as a rational; every numeric literal of the
source is exactly representable). -/
inductive JSNum where
  | nan : JSNum
  | posInf : JSNum
  | negInf : JSNum
  | num (q : ℚ) : JSNum
deriving DecidableEq, Repr

/-- A JavaScript value that is either a number or `undefined` (`none`). -/
abbrev JSVal := Option JSNum

/-- JavaScript `a > b` on numbers: any comparison with NaN is false. -/
def JSNum.gtB : JSNum → JSNum → Bool
  | .nan, _ => false
  | _, .nan => false
  | .posInf, .posInf => false
  | .posInf, _ => true
  | _, .posInf => false
  | .negInf, _ => false
  | _, .negInf => true
  | .num a, .num b => decide (b < a)

/-- JavaScript `a < b` on numbers. -/
def JSNum.ltB (a b : JSNum) : Bool := JSNum.gtB b a

/-- JavaScript `a >= b` on numbers: any comparison with NaN is false. -/
def JSNum.geB : JSNum → JSNum → Bool
  | .nan, _ => false
  | _, .nan => false
  | .posInf, _ => true
  | _, .posInf => false
  | _, .negInf => true
  | .negInf, _ => false
  | .num a, .num b => decide (b ≤ a)

/-- JavaScript `>` where either side may be `undefined` (which compares
as NaN, hence false). -/
def jsGtV : JSVal → JSVal → Bool
  | some a, some b => a.gtB b
  | _, _ => false

/-- JavaScript `<` where either side may be `undefined`. -/
def jsLtV : JSVal → JSVal → Bool
  | some a, some b => a.ltB b
  | _, _ => false

/-- JavaScript `>=` where either side may be `undefined`. -/
def jsGeV : JSVal → JSVal → Bool
  | some a, some b => a.geB b
  | _, _ => false

/-- Model of `Math.abs` on a number. -/
def JSNum.abs : JSNum → JSNum
  | .nan => .nan
  | .posInf => .posInf
  | .negInf => .posInf
  | .num q => .num |q|

/-- Model of `Math.abs` applied to a possibly-`undefined` value (`Math.abs(undefined)`
is NaN). -/
def jsAbsV : JSVal → JSNum
  | none => .nan
  | some a => a.abs

/-- Two-argument `Math.max`: NaN-absorbing, otherwise the larger value. -/
def jsMax2 : JSNum → JSNum → JSNum
  | .nan, _ => .nan
  | _, .nan => .nan
  | .posInf, _ => .posInf
  | _, .posInf => .posInf
  | .negInf, b => b
  | a, .negInf => a
  | .num a, .num b => .num (max a b)

/-- JavaScript addition. -/
def JSNum.add : JSNum → JSNum → JSNum
  | .nan, _ => .nan
  | _, .nan => .nan
  | .posInf, .negInf => .nan
  | .negInf, .posInf => .nan
  | .posInf, _ => .posInf
  | _, .posInf => .posInf
  | .negInf, _ => .negInf
  | _, .negInf => .negInf
  | .num a, .num b => .num (a + b)

/-- JavaScript negation. -/
def JSNum.neg : JSNum → JSNum
  | .nan => .nan
  | .posInf => .negInf
  | .negInf => .posInf
  | .num q => .num (-q)

/-- JavaScript subtraction `a - b`. -/
def JSNum.sub (a b : JSNum) : JSNum := a.add b.neg

/-- JavaScript multiplication; infinity times zero is NaN. -/
def JSNum.mul : JSNum → JSNum → JSNum
  | .nan, _ => .nan
  | _, .nan => .nan
  | .posInf, .posInf => .posInf
  | .posInf, .negInf => .negInf
  | .negInf, .posInf => .negInf
  | .negInf, .negInf => .posInf
  | .posInf, .num q => if q = 0 then .nan else if 0 < q then .posInf else .negInf
  | .num q, .posInf => if q = 0 then .nan else if 0 < q then .posInf else .negInf
  | .negInf, .num q => if q = 0 then .nan else if 0 < q then .negInf else .posInf
  | .num q, .negInf => if q = 0 then .nan else if 0 < q then .negInf else .posInf
  | .num a, .num b => .num (a * b)

/-- JavaScript division; `0 / 0` is NaN, a nonzero finite value divided by
zero is a signed infinity (zero is `+0` in the source), infinity over
infinity is NaN.  Signed zero is collapsed to `0`. -/
def JSNum.div : JSNum → JSNum → JSNum
  | .nan, _ => .nan
  | _, .nan => .nan
  | .posInf, .posInf => .nan
  | .posInf, .negInf => .nan
  | .negInf, .posInf => .nan
  | .negInf, .negInf => .nan
  | .posInf, .num q => if 0 ≤ q then .posInf else .negInf
  | .negInf, .num q => if 0 ≤ q then .negInf else .posInf
  | .num _, .posInf => .num 0
  | .num _, .negInf => .num 0
  | .num a, .num b =>
      if b = 0 then (if a = 0 then .nan else if 0 < a then .posInf else .negInf)
      else .num (a / b)

/-- Left-pad a string with zeros up to length `n`. -/
def padZeros (s : String) (n : Nat) : String :=
  String.mk (List.replicate (n - s.length) '0') ++ s

/-- Model of `Number.prototype.toFixed(d)`: NaN and the infinities print as their
names; a finite value is formatted with `d` decimal digits, rounding the
scaled magnitude half away from zero (the ECMAScript rule: negate first,
then pick the larger of the two closest scaled integers). -/
def JSNum.toFixed : JSNum → Nat → String
  | .nan, _ => "NaN"
  | .posInf, _ => "Infinity"
  | .negInf, _ => "-Infinity"
  | .num q, d =>
      let s := if q < 0 then "-" else ""
      let m : ℚ := (10 : ℚ) ^ d
      let n : Nat := (⌊|q| * m + 1 / 2⌋).toNat
      if d = 0 then s ++ toString n
      else s ++ toString (n / 10 ^ d) ++ "." ++ padZeros (toString (n % 10 ^ d)) d

/-- Model of `v.toFixed(d)` where `v` may be `undefined`: property access on
`undefined` throws a TypeError. -/
def jsToFixedV : JSVal → Nat → Except String String
  | none, _ => .error "TypeError: Cannot read properties of undefined (reading toFixed)"
  | some a, d => .ok (a.toFixed d)

/-- One normalized trending asset (the object pushed by `fetchCryptoData`,
lines 104-111).  `marketCapRank = none` models the string fallback
`market_cap_rank || N/A`; `priceChange24h = none` models `undefined`;
a boolean field absent from an object literal is modelled as `false`. -/
structure AssetSnapshot where
  name : String
  symbol : String
  rank : Option Nat
  marketCapRank : Option Nat
  priceChange24h : JSVal
  trending : Bool
deriving DecidableEq, Repr

/-- One raw record from the trending API: `coin.item.name`,
`coin.item.symbol`, `coin.item.market_cap_rank` (absent modelled `none`),
and `coin.item.data?.price_change_percentage_24h?.usd` (the optional
chain yields `undefined`, modelled `none`). -/
structure RawCoin where
  name : String
  symbol : String
  market_cap_rank : Option Nat
  price_change_usd : JSVal
deriving DecidableEq, Repr

/-- JavaScript truthiness of a possibly-`undefined` number: `undefined`,
NaN and `0` are falsy; every other number is truthy. -/
def jsTruthy : JSVal → Bool
  | none => false
  | some .nan => false
  | some (.num q) => decide (q ≠ 0)
  | some _ => true

/-- The pure data-mapping portion of `fetchCryptoData` (lines 101-113):
`data.coins.slice(0, 5).forEach((coin, index) => cryptoProjects.push(...))`.
The network call and the static-fallback catch branch are handled by callers;
there, `rand index` models the `Math.random() * 20 - 10` draw made for
record `index`; the source substitutes it via `||` whenever the supplied
percent change is falsy. -/
def fetchCryptoData (rand : Nat → ℚ) (coins : List RawCoin) : List AssetSnapshot :=
  (coins.take 5).enum.map fun ic =>
    { name := ic.2.name
      symbol := ic.2.symbol
      rank := some (ic.1 + 1)
      marketCapRank :=
        match ic.2.market_cap_rank with
        | some r => if r = 0 then none else some r
        | none => none
      priceChange24h :=
        if jsTruthy ic.2.price_change_usd then ic.2.price_change_usd
        else some (JSNum.num (rand ic.1))
      trending := true }

/-- Line 352 of `formatMainMessage`: one step of
`(max, p) => p.priceChange24h > max.priceChange24h ? p : max`. -/
def gainStep (mx p : AssetSnapshot) : AssetSnapshot :=
  if jsGtV p.priceChange24h mx.priceChange24h then p else mx

/-- Line 353 of `formatMainMessage`: one step of
`(min, p) => p.priceChange24h < min.priceChange24h ? p : min`. -/
def loseStep (mn p : AssetSnapshot) : AssetSnapshot :=
  if jsLtV p.priceChange24h mn.priceChange24h then p else mn

/-- Model of `cryptoData.reduce(gainStep, cryptoData[0])` (line 352).  JavaScript
`reduce` with an initial value visits every element, index 0 included. -/
def topGainer (l : List AssetSnapshot) (h : l ≠ []) : AssetSnapshot :=
  l.foldl gainStep (l.head h)

/-- Model of `cryptoData.reduce(loseStep, cryptoData[0])` (line 353). -/
def topLoser (l : List AssetSnapshot) (h : l ≠ []) : AssetSnapshot :=
  l.foldl loseStep (l.head h)

/-- The metadata record pushed by `generateCryptoImages` (lines 244-251),
extended with the two computed strings interpolated into the SVG body:
the signed percentage text (line 221) and the accent color (line 193). -/
structure RenderedAsset where
  fileName : String
  filePath : String
  description : String
  project : String
  symbol : String
  trend : String
  pctText : String
  color : String
deriving DecidableEq, Repr

/-- The default placeholder of `generateCryptoImages` line 190:
`cryptoData[i] || { name: Crypto, symbol: BTC, priceChange24h: 0 }`. -/
def defaultProject : AssetSnapshot :=
  { name := "Crypto", symbol := "BTC", rank := none, marketCapRank := none
    priceChange24h := some (JSNum.num 0), trending := false }

/-- Model of `cryptoData[i] || defaultProject`: an out-of-range index yields
`undefined`, which is falsy; a present snapshot object is truthy. -/
def getProject (l : List AssetSnapshot) (i : Nat) : AssetSnapshot :=
  (l.get? i).getD defaultProject

/-- The body of the `generateCryptoImages` loop (lines 189-253) for loop
index `i`, with `t` standing for `Date.now()`.  Throws (as the source
does) iff the percent change is `undefined`, when `.toFixed(1)` is
reached. -/
def renderCryptoImage (t i : Nat) (project : AssetSnapshot) : Except String RenderedAsset :=
  let isPositive := jsGtV project.priceChange24h (some (JSNum.num 0))
  let trend := if isPositive then "rising" else "falling"
  let color := if isPositive then "#27ae60" else "#e74c3c"
  match jsToFixedV project.priceChange24h 1 with
  | .error e => .error e
  | .ok fixed =>
      let pctText := (if isPositive then "+" else "") ++ fixed ++ "%"
      let fileName :=
        "crypto-" ++ project.symbol.toLower ++ "-" ++ toString t ++ "-" ++
          toString (i + 1) ++ ".svg"
      .ok
        { fileName := fileName
          filePath := "./generated-images/" ++ fileName
          description :=
            project.name ++ " (" ++ project.symbol ++ ") showing " ++ trend ++
              " trend with " ++ pctText ++ " price change"
          project := project.name
          symbol := project.symbol
          trend := trend
          pctText := pctText
          color := color }

/-- Model of `generateCryptoImages` (lines 177-257): always exactly two iterations
(`for (let i = 0; i < 2; i++)`), each rendering `cryptoData[i]` or the
placeholder.  Directory creation and the file write are I/O, not data. -/
def generateCryptoImages (t : Nat) (cryptoData : List AssetSnapshot) :
    Except String (List RenderedAsset) :=
  match renderCryptoImage t 0 (getProject cryptoData 0) with
  | .error e => .error e
  | .ok img0 =>
      match renderCryptoImage t 1 (getProject cryptoData 1) with
      | .error e => .error e
      | .ok img1 => .ok [img0, img1]

/-- Chart canvas constants of `generatePriceCharts` (lines 270-274). -/
def chartCanvasWidth : ℚ := 800

/-- Canvas height (line 271). -/
def chartCanvasHeight : ℚ := 600

/-- Constant `margin.top` (line 272). -/
def marginTop : ℚ := 60

/-- Constant `margin.right` (line 272). -/
def marginRight : ℚ := 50

/-- Constant `margin.bottom` (line 272). -/
def marginBottom : ℚ := 120

/-- Constant `margin.left` (line 272). -/
def marginLeft : ℚ := 80

/-- Constant `chartWidth = width - margin.left - margin.right` (line 273), i.e. 670. -/
def chartWidth : ℚ := chartCanvasWidth - marginLeft - marginRight

/-- Constant `chartHeight = height - margin.top - margin.bottom` (line 274), i.e. 420. -/
def chartHeight : ℚ := chartCanvasHeight - marginTop - marginBottom

/-- Constant `centerY = margin.top + chartHeight / 2` (line 314), i.e. 270. -/
def centerY : ℚ := marginTop + chartHeight / 2

/-- One bar of the chart: the geometry and label strings interpolated at
lines 320-330. -/
structure ChartBar where
  x : JSNum
  barY : JSNum
  barWidth : JSNum
  height : JSNum
  barClass : String
  pctLabel : String
  symbolLabel : String
  nameLabel : String
deriving DecidableEq, Repr

/-- The chart artifact: computed scale, y-axis labels (lines 307-309),
bars in input order, and the metadata pushed at lines 340-345. -/
structure RenderedChart where
  maxChange : JSNum
  barWidth : JSNum
  barSpacing : JSNum
  yTopLabel : String
  yZeroLabel : String
  yBottomLabel : String
  bars : List ChartBar
  fileName : String
  filePath : String
  description : String
deriving DecidableEq, Repr

/-- The body of the `cryptoData.forEach((project, index) => ...)` bar loop
(lines 312-331). -/
def buildBar (maxChange barWidth barSpacing : JSNum) (ip : Nat × AssetSnapshot) :
    Except String ChartBar :=
  let index := ip.1
  let project := ip.2
  let x :=
    JSNum.add
      (JSNum.add (JSNum.num marginLeft) (JSNum.mul (JSNum.num (index : ℚ)) barSpacing))
      (JSNum.div (JSNum.sub barSpacing barWidth) (JSNum.num 2))
  let barHeight :=
    JSNum.div (JSNum.mul (jsAbsV project.priceChange24h) (JSNum.num (chartHeight / 2)))
      maxChange
  let barY :=
    if jsGeV project.priceChange24h (some (JSNum.num 0)) then
      JSNum.sub (JSNum.num centerY) barHeight
    else JSNum.num centerY
  let barClass :=
    if jsGeV project.priceChange24h (some (JSNum.num 0)) then "positive-bar"
    else "negative-bar"
  match jsToFixedV project.priceChange24h 1 with
  | .error e => .error e
  | .ok fixed =>
      .ok
        { x := x
          barY := barY
          barWidth := barWidth
          height := barHeight
          barClass := barClass
          pctLabel := (if jsGtV project.priceChange24h (some (JSNum.num 0)) then "+" else "") ++
            fixed ++ "%"
          symbolLabel := project.symbol
          nameLabel :=
            if project.name.length > 10 then project.name.take 10 ++ "..."
            else project.name }

/-- Sequential fail-fast map: models a `forEach` whose body can throw. -/
def mapE {α β : Type} (f : α → Except String β) : List α → Except String (List β)
  | [] => .ok []
  | x :: xs =>
      match f x with
      | .error e => .error e
      | .ok y =>
          match mapE f xs with
          | .error e => .error e
          | .ok ys => .ok (y :: ys)

/-- Model of `generatePriceCharts` (lines 259-349) with `t` standing for
`Date.now()`.  `maxChange = Math.max(...cryptoData.map(p =>
Math.abs(p.priceChange24h)))` (line 276; `Math.max()` of no arguments is
`-Infinity`), `barWidth = chartWidth / cryptoData.length * 0.7`,
`barSpacing = chartWidth / cryptoData.length` (lines 277-278). -/
def generatePriceCharts (t : Nat) (cryptoData : List AssetSnapshot) :
    Except String RenderedChart :=
  let maxChange :=
    (cryptoData.map fun p => jsAbsV p.priceChange24h).foldl jsMax2 JSNum.negInf
  let barWidth :=
    JSNum.mul (JSNum.div (JSNum.num chartWidth) (JSNum.num (cryptoData.length : ℚ)))
      (JSNum.num (7 / 10))
  let barSpacing := JSNum.div (JSNum.num chartWidth) (JSNum.num (cryptoData.length : ℚ))
  match mapE (buildBar maxChange barWidth barSpacing) cryptoData.enum with
  | .error e => .error e
  | .ok bars =>
      let fileName := "price-chart-" ++ toString t ++ ".svg"
      .ok
        { maxChange := maxChange
          barWidth := barWidth
          barSpacing := barSpacing
          yTopLabel := "+" ++ maxChange.toFixed 0 ++ "%"
          yZeroLabel := "0%"
          yBottomLabel := "-" ++ maxChange.toFixed 0 ++ "%"
          bars := bars
          fileName := fileName
          filePath := "./generated-charts/" ++ fileName
          description := "24-hour price change comparison chart for " ++
            toString cryptoData.length ++ " trending crypto projects" }

/-- A snapshot whose percent change is a genuine (finite) number. -/
def isReal (p : AssetSnapshot) : Prop :=
  ∃ q : ℚ, p.priceChange24h = some (JSNum.num q)

/-- The rational value of a real percent change (0 on NaN, the infinities
and `undefined`; only used under an `isReal` hypothesis). -/
def pcQ (p : AssetSnapshot) : ℚ :=
  match p.priceChange24h with
  | some (JSNum.num q) => q
  | _ => 0

/-- The mathematical maximum of `|percentChange24h|` over a snapshot list
(0 for the empty list). -/
def maxAbsQ : List AssetSnapshot → ℚ
  | [] => 0
  | p :: t => t.foldl (fun m q => max m |pcQ q|) |pcQ p|

/-! ### Evaluation lemmas for the JavaScript primitives on finite values -/

theorem jsGtV_num (a b : ℚ) :
    jsGtV (some (JSNum.num a)) (some (JSNum.num b)) = decide (b < a) := rfl

theorem jsLtV_num (a b : ℚ) :
    jsLtV (some (JSNum.num a)) (some (JSNum.num b)) = decide (a < b) := rfl

theorem jsGeV_num (a b : ℚ) :
    jsGeV (some (JSNum.num a)) (some (JSNum.num b)) = decide (b ≤ a) := rfl

theorem jsAbsV_num (a : ℚ) : jsAbsV (some (JSNum.num a)) = JSNum.num |a| := rfl

theorem jsMax2_num (a b : ℚ) :
    jsMax2 (JSNum.num a) (JSNum.num b) = JSNum.num (max a b) := rfl

theorem jsMax2_negInf_num (a : ℚ) :
    jsMax2 JSNum.negInf (JSNum.num a) = JSNum.num a := rfl

theorem JSNum.mul_num (a b : ℚ) :
    (JSNum.num a).mul (JSNum.num b) = JSNum.num (a * b) := rfl

theorem JSNum.div_num (a b : ℚ) (hb : b ≠ 0) :
    (JSNum.num a).div (JSNum.num b) = JSNum.num (a / b) := by
  simp [JSNum.div, hb]

theorem JSNum.div_zero_zero (a : ℚ) (ha : a = 0) :
    (JSNum.num a).div (JSNum.num 0) = JSNum.nan := by
  simp [JSNum.div, ha]

/-! ### The summary extractor (`formatMainMessage`, lines 352-353) -/

/-- The abstract first-argmax step for a rational key `k`. -/
def keyStep (k : AssetSnapshot → ℚ) (mx p : AssetSnapshot) : AssetSnapshot :=
  if k mx < k p then p else mx

/-- A left fold of `keyStep k` starting at `acc` returns the first element
of `acc :: t` (in order) attaining the maximal key: the result occurs at
some index `i`, every element strictly before `i` has a strictly smaller
key, and no element at all has a larger key. -/
theorem foldKey_spec (k : AssetSnapshot → ℚ) (t : List AssetSnapshot)
    (acc : AssetSnapshot) :
    ∃ i : Nat, (acc :: t).get? i = some (t.foldl (keyStep k) acc) ∧
      (∀ j q, j < i → (acc :: t).get? j = some q →
        k q < k (t.foldl (keyStep k) acc)) ∧
      (∀ j q, (acc :: t).get? j = some q → k q ≤ k (t.foldl (keyStep k) acc)) := by
  induction t generalizing acc with
  | nil =>
    refine ⟨0, rfl, ?_, ?_⟩
    · intro j q hj hq; omega
    · intro j q hq
      cases j with
      | zero =>
        obtain rfl := Option.some.inj hq
        exact le_refl _
      | succ n => simp at hq
  | cons p t ih =>
    have hfold : (p :: t).foldl (keyStep k) acc = t.foldl (keyStep k) (keyStep k acc p) := rfl
    rcases lt_or_ge (k acc) (k p) with hlt | hge
    · have hstep : keyStep k acc p = p := by simp [keyStep, hlt]
      obtain ⟨i, hi, hstrict, hle⟩ := ih p
      rw [hfold, hstep]
      have hpr : k p ≤ k (t.foldl (keyStep k) p) := hle 0 p rfl
      refine ⟨i + 1, ?_, ?_, ?_⟩
      · rw [List.get?_cons_succ]; exact hi
      · intro j q hj hq
        cases j with
        | zero =>
          rw [List.get?_cons_zero] at hq
          obtain rfl := Option.some.inj hq
          exact lt_of_lt_of_le hlt hpr
        | succ j =>
          rw [List.get?_cons_succ] at hq
          exact hstrict j q (by omega) hq
      · intro j q hq
        cases j with
        | zero =>
          rw [List.get?_cons_zero] at hq
          obtain rfl := Option.some.inj hq
          exact le_of_lt (lt_of_lt_of_le hlt hpr)
        | succ j =>
          rw [List.get?_cons_succ] at hq
          exact hle j q hq
    · have hstep : keyStep k acc p = acc := by
        simp only [keyStep]
        rw [if_neg (not_lt.mpr hge)]
      obtain ⟨i, hi, hstrict, hle⟩ := ih acc
      rw [hfold, hstep]
      cases i with
      | zero =>
        rw [List.get?_cons_zero] at hi
        have haccr : acc = t.foldl (keyStep k) acc := Option.some.inj hi
        refine ⟨0, ?_, ?_, ?_⟩
        · rw [List.get?_cons_zero]; exact congrArg some haccr
        · intro j q hj hq; omega
        · intro j q hq
          cases j with
          | zero =>
            rw [List.get?_cons_zero] at hq
            obtain rfl := Option.some.inj hq
            exact le_of_eq (congrArg k haccr.symm).symm
          | succ j =>
            rw [List.get?_cons_succ] at hq
            cases j with
            | zero =>
              rw [List.get?_cons_zero] at hq
              obtain rfl := Option.some.inj hq
              exact le_trans hge (le_of_eq (congrArg k haccr.symm).symm)
            | succ j =>
              rw [List.get?_cons_succ] at hq
              exact hle (j + 1) q (by rw [List.get?_cons_succ]; exact hq)
      | succ i =>
        rw [List.get?_cons_succ] at hi
        have haccr : k acc < k (t.foldl (keyStep k) acc) :=
          hstrict 0 acc (Nat.succ_pos i) rfl
        refine ⟨i + 2, ?_, ?_, ?_⟩
        · rw [List.get?_cons_succ, List.get?_cons_succ]; exact hi
        · intro j q hj hq
          cases j with
          | zero =>
            rw [List.get?_cons_zero] at hq
            obtain rfl := Option.some.inj hq
            exact haccr
          | succ j =>
            rw [List.get?_cons_succ] at hq
            cases j with
            | zero =>
              rw [List.get?_cons_zero] at hq
              obtain rfl := Option.some.inj hq
              exact lt_of_le_of_lt hge haccr
            | succ j =>
              rw [List.get?_cons_succ] at hq
              exact hstrict (j + 1) q (by omega) (by rw [List.get?_cons_succ]; exact hq)
        · intro j q hq
          cases j with
          | zero =>
            rw [List.get?_cons_zero] at hq
            obtain rfl := Option.some.inj hq
            exact le_of_lt haccr
          | succ j =>
            rw [List.get?_cons_succ] at hq
            cases j with
            | zero =>
              rw [List.get?_cons_zero] at hq
              obtain rfl := Option.some.inj hq
              exact le_trans hge (le_of_lt haccr)
            | succ j =>
              rw [List.get?_cons_succ] at hq
              exact hle (j + 1) q (by rw [List.get?_cons_succ]; exact hq)

theorem gainStep_eq_keyStep (mx p : AssetSnapshot) (hm : isReal mx) (hp : isReal p) :
    gainStep mx p = keyStep pcQ mx p := by
  obtain ⟨a, ha⟩ := hm
  obtain ⟨b, hb⟩ := hp
  simp only [gainStep, keyStep, ha, hb, jsGtV_num, pcQ]
  by_cases hab : a < b
  · simp [hab]
  · simp [hab]

theorem loseStep_eq_keyStep (mn p : AssetSnapshot) (hm : isReal mn) (hp : isReal p) :
    loseStep mn p = keyStep (fun s => -pcQ s) mn p := by
  obtain ⟨a, ha⟩ := hm
  obtain ⟨b, hb⟩ := hp
  simp only [loseStep, keyStep, ha, hb, jsLtV_num, pcQ]
  by_cases hab : b < a
  · rw [if_pos (by simp [hab]), if_pos (neg_lt_neg hab)]
  · rw [if_neg (by simp [hab]), if_neg (fun h => hab (neg_lt_neg_iff.mp h))]

theorem keyStep_isReal (k : AssetSnapshot → ℚ) (mx p : AssetSnapshot)
    (hm : isReal mx) (hp : isReal p) : isReal (keyStep k mx p) := by
  unfold keyStep
  split
  · exact hp
  · exact hm

theorem foldl_gainStep_eq_key (t : List AssetSnapshot) (acc : AssetSnapshot)
    (hacc : isReal acc) (ht : ∀ p ∈ t, isReal p) :
    t.foldl gainStep acc = t.foldl (keyStep pcQ) acc := by
  induction t generalizing acc with
  | nil => rfl
  | cons p t ih =>
    have hp : isReal p := ht p (List.mem_cons_self p t)
    rw [List.foldl_cons, List.foldl_cons, gainStep_eq_keyStep acc p hacc hp]
    exact ih (keyStep pcQ acc p) (keyStep_isReal pcQ acc p hacc hp)
      (fun q hq => ht q (List.mem_cons_of_mem p hq))

theorem foldl_loseStep_eq_key (t : List AssetSnapshot) (acc : AssetSnapshot)
    (hacc : isReal acc) (ht : ∀ p ∈ t, isReal p) :
    t.foldl loseStep acc = t.foldl (keyStep fun s => -pcQ s) acc := by
  induction t generalizing acc with
  | nil => rfl
  | cons p t ih =>
    have hp : isReal p := ht p (List.mem_cons_self p t)
    rw [List.foldl_cons, List.foldl_cons, loseStep_eq_keyStep acc p hacc hp]
    exact ih (keyStep (fun s => -pcQ s) acc p)
      (keyStep_isReal _ acc p hacc hp)
      (fun q hq => ht q (List.mem_cons_of_mem p hq))

theorem gainStep_self (a : AssetSnapshot) : gainStep a a = a := by
  simp [gainStep]

theorem loseStep_self (a : AssetSnapshot) : loseStep a a = a := by
  simp [loseStep]

theorem topGainer_eq_foldKey (a : AssetSnapshot) (t : List AssetSnapshot)
    (hreal : ∀ p ∈ a :: t, isReal p) :
    topGainer (a :: t) (List.cons_ne_nil a t) = t.foldl (keyStep pcQ) a := by
  show (a :: t).foldl gainStep ((a :: t).head (List.cons_ne_nil a t)) = _
  rw [List.head_cons, List.foldl_cons, gainStep_self]
  exact foldl_gainStep_eq_key t a (hreal a (List.mem_cons_self a t))
    (fun p hp => hreal p (List.mem_cons_of_mem a hp))

theorem topLoser_eq_foldKey (a : AssetSnapshot) (t : List AssetSnapshot)
    (hreal : ∀ p ∈ a :: t, isReal p) :
    topLoser (a :: t) (List.cons_ne_nil a t) = t.foldl (keyStep fun s => -pcQ s) a := by
  show (a :: t).foldl loseStep ((a :: t).head (List.cons_ne_nil a t)) = _
  rw [List.head_cons, List.foldl_cons, loseStep_self]
  exact foldl_loseStep_eq_key t a (hreal a (List.mem_cons_self a t))
    (fun p hp => hreal p (List.mem_cons_of_mem a hp))

/-- Test-data helper: a snapshot with the given finite percent change. -/
def mkSnap (name symbol : String) (q : ℚ) : AssetSnapshot :=
  { name := name, symbol := symbol, rank := none, marketCapRank := none
    priceChange24h := some (JSNum.num q), trending := false }

/-- The tie input of the spec: two snapshots both at +5. -/
def tieList : List AssetSnapshot := [mkSnap "A" "A" 5, mkSnap "B" "B" 5]

/-- A concrete three-asset list used to witness the summary theorems. -/
def wList : List AssetSnapshot :=
  [mkSnap "Bitcoin" "BTC" 3, mkSnap "Ethereum" "ETH" (-2), mkSnap "Solana" "SOL" 8]

/-- Claim C1: on a non-empty snapshot list with genuine numeric percent
changes, `topGainer` has a percent change at least that of every element,
and `topLoser` at most that of every element. -/
theorem summary_extremes (l : List AssetSnapshot) (h : l ≠ [])
    (hreal : ∀ p ∈ l, isReal p) :
    ∀ p ∈ l, pcQ p ≤ pcQ (topGainer l h) ∧ pcQ (topLoser l h) ≤ pcQ p := by
  obtain ⟨a, t, rfl⟩ := List.exists_cons_of_ne_nil h
  intro p hp
  obtain ⟨j, hj⟩ := List.get?_of_mem hp
  rw [topGainer_eq_foldKey a t hreal, topLoser_eq_foldKey a t hreal]
  obtain ⟨i, hi, hst, hle⟩ := foldKey_spec pcQ t a
  obtain ⟨i2, hi2, hst2, hle2⟩ := foldKey_spec (fun s => -pcQ s) t a
  refine ⟨hle j p hj, ?_⟩
  have := hle2 j p hj
  simpa using this

/-- Witness for C1 at a concrete three-asset list. -/
theorem summary_extremes_w :
    pcQ (mkSnap "Ethereum" "ETH" (-2)) ≤
        pcQ (topGainer wList (List.cons_ne_nil _ _)) ∧
      pcQ (topLoser wList (List.cons_ne_nil _ _)) ≤
        pcQ (mkSnap "Ethereum" "ETH" (-2)) :=
  summary_extremes wList (List.cons_ne_nil _ _)
    (by
      intro p hp
      simp only [wList, List.mem_cons, List.not_mem_nil, or_false] at hp
      rcases hp with rfl | rfl | rfl
      · exact ⟨3, rfl⟩
      · exact ⟨-2, rfl⟩
      · exact ⟨8, rfl⟩)
    (mkSnap "Ethereum" "ETH" (-2))
    (List.mem_cons_of_mem _ (List.mem_cons_self _ _))

/-- Claim C2: `topGainer` (resp. `topLoser`) is the first element, in
input order, attaining the maximal (resp. minimal) percent change: it
occurs at an index before which every element is strictly smaller (resp.
strictly larger), and no element anywhere beats it.  In particular on
`[A: +5, B: +5]` both reductions return the element with symbol `A`. -/
theorem summary_first_occurrence (l : List AssetSnapshot) (h : l ≠ [])
    (hreal : ∀ p ∈ l, isReal p) :
    ((∃ i, l.get? i = some (topGainer l h) ∧
        (∀ j q, l.get? j = some q → pcQ q ≤ pcQ (topGainer l h)) ∧
        (∀ j q, j < i → l.get? j = some q → pcQ q < pcQ (topGainer l h))) ∧
      (∃ i, l.get? i = some (topLoser l h) ∧
        (∀ j q, l.get? j = some q → pcQ (topLoser l h) ≤ pcQ q) ∧
        (∀ j q, j < i → l.get? j = some q → pcQ (topLoser l h) < pcQ q))) ∧
    (topGainer tieList (List.cons_ne_nil _ _)).symbol = "A" ∧
    (topLoser tieList (List.cons_ne_nil _ _)).symbol = "A" := by
  refine ⟨?_, ?_, ?_⟩
  · obtain ⟨a, t, rfl⟩ := List.exists_cons_of_ne_nil h
    rw [topGainer_eq_foldKey a t hreal, topLoser_eq_foldKey a t hreal]
    obtain ⟨i, hi, hst, hle⟩ := foldKey_spec pcQ t a
    obtain ⟨i2, hi2, hst2, hle2⟩ := foldKey_spec (fun s => -pcQ s) t a
    constructor
    · exact ⟨i, hi, fun j q hjq => hle j q hjq,
        fun j q hj hjq => hst j q hj hjq⟩
    · refine ⟨i2, hi2, ?_, ?_⟩
      · intro j q hjq
        have := hle2 j q hjq
        simpa using this
      · intro j q hj hjq
        have := hst2 j q hj hjq
        simpa using this
  · rfl
  · rfl

/-- Witness for C2 at the tie input from the spec. -/
theorem summary_first_occurrence_w :
    (topGainer tieList (List.cons_ne_nil _ _)).symbol = "A" ∧
    (topLoser tieList (List.cons_ne_nil _ _)).symbol = "A" :=
  (summary_first_occurrence tieList (List.cons_ne_nil _ _)
    (by
      intro p hp
      simp only [tieList, List.mem_cons, List.not_mem_nil, or_false] at hp
      rcases hp with rfl | rfl
      · exact ⟨5, rfl⟩
      · exact ⟨5, rfl⟩)).2

/-! ### The visual renderer (`generateCryptoImages`) -/

theorem renderCryptoImage_ok (t i : Nat) (p : AssetSnapshot) (n : JSNum)
    (hp : p.priceChange24h = some n) :
    ∃ img, renderCryptoImage t i p = .ok img ∧
      img.trend = (if jsGtV (some n) (some (JSNum.num 0)) then "rising" else "falling") ∧
      img.color = (if jsGtV (some n) (some (JSNum.num 0)) then "#27ae60" else "#e74c3c") ∧
      img.symbol = p.symbol ∧ img.project = p.name ∧
      img.pctText = (if jsGtV (some n) (some (JSNum.num 0)) then "+" else "") ++
        n.toFixed 1 ++ "%" := by
  unfold renderCryptoImage
  rw [hp]
  exact ⟨_, rfl, rfl, rfl, rfl, rfl, rfl⟩

theorem renderCryptoImage_undef (t i : Nat) (p : AssetSnapshot)
    (hp : p.priceChange24h = none) :
    renderCryptoImage t i p =
      .error "TypeError: Cannot read properties of undefined (reading toFixed)" := by
  unfold renderCryptoImage
  rw [hp]
  rfl

theorem generateCryptoImages_eq (t : Nat) (l : List AssetSnapshot)
    (img0 img1 : RenderedAsset)
    (h0 : renderCryptoImage t 0 (getProject l 0) = .ok img0)
    (h1 : renderCryptoImage t 1 (getProject l 1) = .ok img1) :
    generateCryptoImages t l = .ok [img0, img1] := by
  unfold generateCryptoImages
  rw [h0, h1]

theorem getProject_default (l : List AssetSnapshot) (i : Nat) (h : l.length ≤ i) :
    getProject l i = defaultProject := by
  unfold getProject
  rw [List.get?_eq_none.mpr h]
  rfl

theorem getProject_ne_none (l : List AssetSnapshot) (i : Nat)
    (hdef : ∀ p ∈ l, p.priceChange24h ≠ none) :
    (getProject l i).priceChange24h ≠ none := by
  unfold getProject
  cases h : l.get? i with
  | none => simp [defaultProject]
  | some p => simpa using hdef p (List.get?_mem h)

/-- Claim C10: for every snapshot list (with defined percent changes),
the image batch returns exactly 2 rendered assets, and every index at or
beyond the end of the input is rendered from the default placeholder. -/
theorem visual_batch_two (t : Nat) (l : List AssetSnapshot)
    (hdef : ∀ p ∈ l, p.priceChange24h ≠ none) :
    ∃ imgs, generateCryptoImages t l = .ok imgs ∧ imgs.length = 2 ∧
      ∀ i, i < 2 → l.length ≤ i →
        ∃ img, imgs.get? i = some img ∧
          renderCryptoImage t i defaultProject = .ok img := by
  obtain ⟨n0, hn0⟩ := Option.ne_none_iff_exists'.mp (getProject_ne_none l 0 hdef)
  obtain ⟨n1, hn1⟩ := Option.ne_none_iff_exists'.mp (getProject_ne_none l 1 hdef)
  obtain ⟨img0, h0, -⟩ := renderCryptoImage_ok t 0 _ n0 hn0
  obtain ⟨img1, h1, -⟩ := renderCryptoImage_ok t 1 _ n1 hn1
  refine ⟨[img0, img1], generateCryptoImages_eq t l img0 img1 h0 h1, rfl, ?_⟩
  intro i hi2 hli
  interval_cases i
  · exact ⟨img0, rfl, by rw [← getProject_default l 0 hli]; exact h0⟩
  · exact ⟨img1, rfl, by rw [← getProject_default l 1 hli]; exact h1⟩

/-- Witness for C10 at the empty list. -/
theorem visual_batch_two_w :
    ∃ imgs, generateCryptoImages 0 [] = Except.ok imgs ∧ imgs.length = 2 ∧
      ∀ i, i < 2 → ([] : List AssetSnapshot).length ≤ i →
        ∃ img, imgs.get? i = some img ∧
          renderCryptoImage 0 i defaultProject = Except.ok img :=
  visual_batch_two 0 [] (by intro p hp; exact absurd hp (List.not_mem_nil p))

/-- Counterexample to claim C4: on the empty snapshot list neither
renderer fails; both return artifacts. -/
theorem renderers_empty_produce :
    (∃ imgs, generateCryptoImages 0 [] = Except.ok imgs) ∧
    (∃ c, generatePriceCharts 0 [] = Except.ok c) :=
  ⟨⟨_, rfl⟩, ⟨_, rfl⟩⟩

theorem jsGtV_zero_zero : jsGtV (some (JSNum.num 0)) (some (JSNum.num 0)) = false := by
  rw [jsGtV_num]; simp

/-- Amended C4: on the empty list the renderers do not fail fast.  The
visual renderer returns two placeholder images (symbol `BTC`, name
`Crypto`, trend `falling`), and the chart renderer returns a chart with
no bars whose scale `maxChange` is `-Infinity` (the value of `Math.max()`
with no arguments). -/
theorem renderers_empty_spec (t : Nat) :
    (∃ imgs, generateCryptoImages t [] = Except.ok imgs ∧ imgs.length = 2 ∧
      ∀ img ∈ imgs, img.symbol = "BTC" ∧ img.project = "Crypto" ∧
        img.trend = "falling") ∧
    (∃ c, generatePriceCharts t [] = Except.ok c ∧ c.bars = [] ∧
      c.maxChange = JSNum.negInf) := by
  constructor
  · obtain ⟨img0, h0, ht0, -, hs0, hp0, -⟩ :=
      renderCryptoImage_ok t 0 defaultProject (JSNum.num 0) rfl
    obtain ⟨img1, h1, ht1, -, hs1, hp1, -⟩ :=
      renderCryptoImage_ok t 1 defaultProject (JSNum.num 0) rfl
    refine ⟨[img0, img1], generateCryptoImages_eq t [] img0 img1 h0 h1, rfl, ?_⟩
    intro img hmem
    rcases List.mem_cons.mp hmem with rfl | hmem2
    · refine ⟨hs0, hp0, ?_⟩
      rw [ht0, jsGtV_zero_zero]
      rfl
    · rcases List.mem_cons.mp hmem2 with rfl | hmem3
      · refine ⟨hs1, hp1, ?_⟩
        rw [ht1, jsGtV_zero_zero]
        rfl
      · exact absurd hmem3 (List.not_mem_nil img)
  · exact ⟨_, rfl, rfl, rfl⟩

/-- Claim C5: the visual renderer classifies a finite percent change `q`
as `rising` exactly when `q > 0` and as `falling` exactly when `q ≤ 0`
(zero included). -/
theorem visual_trend_boundary (t i : Nat) (name symbol : String) (q : ℚ) :
    ∃ img, renderCryptoImage t i (mkSnap name symbol q) = Except.ok img ∧
      (img.trend = "rising" ↔ 0 < q) ∧ (img.trend = "falling" ↔ q ≤ 0) := by
  have hrf : ("rising" : String) ≠ "falling" := by decide
  obtain ⟨img, hok, ht, -⟩ := renderCryptoImage_ok t i (mkSnap name symbol q) (JSNum.num q) rfl
  refine ⟨img, hok, ?_, ?_⟩
  · rw [ht, jsGtV_num]
    by_cases h : 0 < q
    · simp [h]
    · simp [h, Ne.symm hrf]
  · rw [ht, jsGtV_num]
    by_cases h : 0 < q
    · simp [h, hrf, not_le.mpr h]
    · simp [h, not_lt.mp h]

/-- The snapshot with a NaN percent change. -/
def nanSnap : AssetSnapshot :=
  { name := "Crypto", symbol := "BTC", rank := none, marketCapRank := none
    priceChange24h := some JSNum.nan, trending := false }

/-- The snapshot with an undefined percent change. -/
def undefSnap : AssetSnapshot :=
  { name := "Crypto", symbol := "BTC", rank := none, marketCapRank := none
    priceChange24h := none, trending := false }

/-- Counterexample to claim C6: with an undefined percent change the
visual renderer throws (a TypeError surfaces at `.toFixed(1)`), and with
a NaN percent change it renders `NaN%`, not `0.0%`. -/
theorem visual_invalid_counterexample :
    (∃ e, renderCryptoImage 0 0 undefSnap = Except.error e) ∧
    (∃ img, renderCryptoImage 0 0 nanSnap = Except.ok img ∧
      img.pctText ≠ "0.0%") :=
  ⟨⟨_, rfl⟩, ⟨_, rfl, by decide⟩⟩

/-- Amended C6: a NaN percent change does not throw — the renderer
classifies it as falling but renders the text `NaN%` — while an undefined
percent change throws a TypeError at `.toFixed(1)`. -/
theorem visual_invalid_spec (t i : Nat) (name symbol : String) :
    (∃ img, renderCryptoImage t i
        { name := name, symbol := symbol, rank := none, marketCapRank := none
          priceChange24h := some JSNum.nan, trending := false } = Except.ok img ∧
        img.trend = "falling" ∧ img.pctText = "NaN%") ∧
    (∃ e, renderCryptoImage t i
        { name := name, symbol := symbol, rank := none, marketCapRank := none
          priceChange24h := none, trending := false } = Except.error e) := by
  constructor
  · obtain ⟨img, hok, ht, -, -, -, hpct⟩ :=
      renderCryptoImage_ok t i
        { name := name, symbol := symbol, rank := none, marketCapRank := none
          priceChange24h := some JSNum.nan, trending := false } JSNum.nan rfl
    refine ⟨img, hok, ?_, ?_⟩
    · rw [ht]; rfl
    · rw [hpct]; rfl
  · exact ⟨_, renderCryptoImage_undef t i
      { name := name, symbol := symbol, rank := none, marketCapRank := none
        priceChange24h := none, trending := false } rfl⟩

/-! ### The chart renderer (`generatePriceCharts`) -/

theorem mapE_ok {α β : Type} (f : α → Except String β) (xs : List α)
    (hf : ∀ x ∈ xs, ∃ y, f x = .ok y) :
    ∃ ys, mapE f xs = .ok ys ∧ ys.length = xs.length ∧
      ∀ i x, xs.get? i = some x → ∃ y, ys.get? i = some y ∧ f x = .ok y := by
  induction xs with
  | nil =>
    refine ⟨[], rfl, rfl, ?_⟩
    intro i x hx
    simp at hx
  | cons x xs ih =>
    obtain ⟨y, hy⟩ := hf x (List.mem_cons_self x xs)
    obtain ⟨ys, hys, hlen, hidx⟩ := ih (fun a ha => hf a (List.mem_cons_of_mem x ha))
    refine ⟨y :: ys, ?_, by simp [hlen], ?_⟩
    · unfold mapE
      rw [hy, hys]
    · intro i a ha
      cases i with
      | zero =>
        rw [List.get?_cons_zero] at ha
        obtain rfl := Option.some.inj ha
        exact ⟨y, rfl, hy⟩
      | succ i =>
        rw [List.get?_cons_succ] at ha
        obtain ⟨b, hb1, hb2⟩ := hidx i a ha
        exact ⟨b, by rw [List.get?_cons_succ]; exact hb1, hb2⟩

theorem enumFrom_get? {α : Type} (l : List α) (n i : Nat) :
    (List.enumFrom n l).get? i = (l.get? i).map fun a => (n + i, a) := by
  induction l generalizing n i with
  | nil => simp [List.enumFrom]
  | cons a l ih =>
    cases i with
    | zero => simp [List.enumFrom]
    | succ i =>
      simp only [List.enumFrom, List.get?_cons_succ]
      rw [ih (n + 1) i]
      simp only [Nat.add_assoc, Nat.add_comm 1 i]

theorem enum_get? {α : Type} (l : List α) (i : Nat) :
    l.enum.get? i = (l.get? i).map fun a => (i, a) := by
  rw [show l.enum = List.enumFrom 0 l from rfl, enumFrom_get?]
  simp only [Nat.zero_add]

theorem mem_of_mem_enumFrom {α : Type} (l : List α) (n : Nat) (x : Nat × α)
    (h : x ∈ List.enumFrom n l) : x.2 ∈ l := by
  induction l generalizing n with
  | nil => simp [List.enumFrom] at h
  | cons a l ih =>
    simp only [List.enumFrom, List.mem_cons] at h
    rcases h with rfl | h
    · exact List.mem_cons_self a l
    · exact List.mem_cons_of_mem a (ih (n + 1) h)

theorem buildBar_ok (mc bw bs : JSNum) (i : Nat) (p : AssetSnapshot) (n : JSNum)
    (hp : p.priceChange24h = some n) :
    ∃ b, buildBar mc bw bs (i, p) = .ok b ∧
      b.height = ((jsAbsV (some n)).mul (JSNum.num (chartHeight / 2))).div mc ∧
      b.barClass = (if jsGeV (some n) (some (JSNum.num 0)) then "positive-bar"
        else "negative-bar") ∧
      b.barY = (if jsGeV (some n) (some (JSNum.num 0)) then
          (JSNum.num centerY).sub (((jsAbsV (some n)).mul (JSNum.num (chartHeight / 2))).div mc)
        else JSNum.num centerY) := by
  unfold buildBar
  dsimp only
  rw [hp]
  exact ⟨_, rfl, rfl, rfl, rfl⟩

theorem foldl_jsMax2_num (t : List AssetSnapshot) (acc : ℚ)
    (ht : ∀ p ∈ t, isReal p) :
    (t.map fun p => jsAbsV p.priceChange24h).foldl jsMax2 (JSNum.num acc) =
      JSNum.num (t.foldl (fun m q => max m |pcQ q|) acc) := by
  induction t generalizing acc with
  | nil => rfl
  | cons p t ih =>
    obtain ⟨q, hq⟩ := ht p (List.mem_cons_self p t)
    have hpc : pcQ p = q := by simp [pcQ, hq]
    simp only [List.map_cons, List.foldl_cons, hq, jsAbsV_num, jsMax2_num, hpc]
    exact ih (max acc |q|) (fun r hr => ht r (List.mem_cons_of_mem p hr))

theorem maxChange_real (l : List AssetSnapshot) (h : l ≠ [])
    (hreal : ∀ p ∈ l, isReal p) :
    (l.map fun p => jsAbsV p.priceChange24h).foldl jsMax2 JSNum.negInf =
      JSNum.num (maxAbsQ l) := by
  obtain ⟨a, t, rfl⟩ := List.exists_cons_of_ne_nil h
  obtain ⟨q, hq⟩ := hreal a (List.mem_cons_self a t)
  have hpc : pcQ a = q := by simp [pcQ, hq]
  simp only [List.map_cons, List.foldl_cons, hq, jsAbsV_num, jsMax2_negInf_num]
  rw [foldl_jsMax2_num t |q| (fun r hr => hreal r (List.mem_cons_of_mem a hr))]
  simp [maxAbsQ, hpc]

theorem generatePriceCharts_ok (t : Nat) (l : List AssetSnapshot)
    (hdef : ∀ p ∈ l, p.priceChange24h ≠ none) :
    ∃ c, generatePriceCharts t l = .ok c ∧
      c.maxChange = (l.map fun p => jsAbsV p.priceChange24h).foldl jsMax2 JSNum.negInf ∧
      c.bars.length = l.length ∧
      ∀ i p n, l.get? i = some p → p.priceChange24h = some n →
        ∃ b, c.bars.get? i = some b ∧
          b.height = ((jsAbsV (some n)).mul (JSNum.num (chartHeight / 2))).div c.maxChange ∧
          b.barClass = (if jsGeV (some n) (some (JSNum.num 0)) then "positive-bar"
            else "negative-bar") ∧
          b.barY = (if jsGeV (some n) (some (JSNum.num 0)) then
              (JSNum.num centerY).sub b.height else JSNum.num centerY) := by
  have hall : ∀ x ∈ l.enum,
      ∃ y, buildBar ((l.map fun p => jsAbsV p.priceChange24h).foldl jsMax2 JSNum.negInf)
        (JSNum.mul (JSNum.div (JSNum.num chartWidth) (JSNum.num (l.length : ℚ)))
          (JSNum.num (7 / 10)))
        (JSNum.div (JSNum.num chartWidth) (JSNum.num (l.length : ℚ))) x = .ok y := by
    intro x hx
    have hx2 : x.2 ∈ l := mem_of_mem_enumFrom l 0 x hx
    obtain ⟨n, hn⟩ := Option.ne_none_iff_exists'.mp (hdef x.2 hx2)
    obtain ⟨b, hb, -⟩ := buildBar_ok _ _ _ x.1 x.2 n hn
    exact ⟨b, hb⟩
  obtain ⟨bars, hbars, hlen, hidx⟩ := mapE_ok _ l.enum hall
  have hmain : ∃ c, generatePriceCharts t l = .ok c ∧
      c.maxChange = (l.map fun p => jsAbsV p.priceChange24h).foldl jsMax2 JSNum.negInf ∧
      c.bars = bars := by
    unfold generatePriceCharts
    dsimp only
    rw [hbars]
    exact ⟨_, rfl, rfl, rfl⟩
  obtain ⟨c, hc, hmc, hcb⟩ := hmain
  refine ⟨c, hc, hmc, ?_, ?_⟩
  · rw [hcb, hlen]; simp
  · intro i p n hp hn
    obtain ⟨b, hb1, hb2⟩ := hidx i (i, p) (by rw [enum_get?, hp]; rfl)
    obtain ⟨b2, hb2e, hh, hcl, hy⟩ := buildBar_ok _ _ _ i p n hn
    rw [hb2] at hb2e
    obtain rfl := Except.ok.inj hb2e
    refine ⟨b, by rw [hcb]; exact hb1, ?_, hcl, ?_⟩
    · rw [hmc]; exact hh
    · rw [hh]; exact hy

/-- The scale-property input from the spec: X at +10, Y at -5. -/
def xyList : List AssetSnapshot := [mkSnap "X" "X" 10, mkSnap "Y" "Y" (-5)]

/-- Claim C7: when the maximal absolute change is positive, each bar's
height is `|percentChange24h| / maxAbsChange * (plotHeight / 2)`; on
`[X: +10, Y: -5]` the X bar is exactly twice the Y bar. -/
theorem chart_scale (t : Nat) (l : List AssetSnapshot) (h : l ≠ [])
    (hreal : ∀ p ∈ l, isReal p) (hmax : 0 < maxAbsQ l) :
    (∃ c, generatePriceCharts t l = Except.ok c ∧
      ∀ i p, l.get? i = some p →
        ∃ b, c.bars.get? i = some b ∧
          b.height = JSNum.num (|pcQ p| / maxAbsQ l * (chartHeight / 2))) ∧
    (∃ c, generatePriceCharts 0 xyList = Except.ok c ∧
      ∃ bX bY, c.bars.get? 0 = some bX ∧ c.bars.get? 1 = some bY ∧
        ∃ hq : ℚ, bY.height = JSNum.num hq ∧ bX.height = JSNum.num (2 * hq)) := by
  constructor
  · have hdef : ∀ p ∈ l, p.priceChange24h ≠ none := by
      intro p hp
      obtain ⟨q, hq⟩ := hreal p hp
      simp [hq]
    obtain ⟨c, hc, hmc, hlen, hidx⟩ := generatePriceCharts_ok t l hdef
    refine ⟨c, hc, ?_⟩
    intro i p hp
    obtain ⟨q, hq⟩ := hreal p (List.get?_mem hp)
    obtain ⟨b, hb, hh, -, -⟩ := hidx i p (JSNum.num q) hp hq
    refine ⟨b, hb, ?_⟩
    rw [hh, hmc, maxChange_real l h hreal, jsAbsV_num, JSNum.mul_num,
      JSNum.div_num _ _ (ne_of_gt hmax)]
    have hpc : pcQ p = q := by simp [pcQ, hq]
    rw [hpc, mul_div_right_comm]
  · have hdef2 : ∀ p ∈ xyList, p.priceChange24h ≠ none := by
      intro p hp
      simp only [xyList, List.mem_cons, List.not_mem_nil, or_false] at hp
      rcases hp with rfl | rfl <;> simp [mkSnap]
    have hreal2 : ∀ p ∈ xyList, isReal p := by
      intro p hp
      simp only [xyList, List.mem_cons, List.not_mem_nil, or_false] at hp
      rcases hp with rfl | rfl
      · exact ⟨10, rfl⟩
      · exact ⟨-5, rfl⟩
    have hmax2 : maxAbsQ xyList = 10 := by
      norm_num [xyList, maxAbsQ, pcQ, mkSnap]
    obtain ⟨c, hc, hmc, hlen, hidx⟩ := generatePriceCharts_ok 0 xyList hdef2
    obtain ⟨bX, hbX, hhX, -, -⟩ := hidx 0 (mkSnap "X" "X" 10) (JSNum.num 10) rfl rfl
    obtain ⟨bY, hbY, hhY, -, -⟩ := hidx 1 (mkSnap "Y" "Y" (-5)) (JSNum.num (-5)) rfl rfl
    refine ⟨c, hc, bX, bY, hbX, hbY, 105, ?_, ?_⟩
    · rw [hhY, hmc, maxChange_real xyList (List.cons_ne_nil _ _) hreal2, hmax2,
        jsAbsV_num, JSNum.mul_num, JSNum.div_num _ _ (by norm_num)]
      congr 1
      norm_num [chartHeight, chartCanvasHeight, marginTop, marginBottom]
    · rw [hhX, hmc, maxChange_real xyList (List.cons_ne_nil _ _) hreal2, hmax2,
        jsAbsV_num, JSNum.mul_num, JSNum.div_num _ _ (by norm_num)]
      congr 1
      norm_num [chartHeight, chartCanvasHeight, marginTop, marginBottom]

/-- Claim C3 (evaluated): on a non-empty all-zero snapshot list the chart
renderer does return successfully, but every bar height is NaN — the
JavaScript `0 * (chartHeight / 2) / 0` — rather than the zero-height
degradation the specification requires. -/
theorem chart_allzero_nan (t : Nat) (l : List AssetSnapshot) (h : l ≠ [])
    (hzero : ∀ p ∈ l, p.priceChange24h = some (JSNum.num 0)) :
    ∃ c, generatePriceCharts t l = Except.ok c ∧ c.bars.length = l.length ∧
      ∀ i p, l.get? i = some p →
        ∃ b, c.bars.get? i = some b ∧ b.height = JSNum.nan := by
  have hreal : ∀ p ∈ l, isReal p := fun p hp => ⟨0, hzero p hp⟩
  have hdef : ∀ p ∈ l, p.priceChange24h ≠ none := by
    intro p hp
    rw [hzero p hp]
    simp
  obtain ⟨c, hc, hmc, hlen, hidx⟩ := generatePriceCharts_ok t l hdef
  have hfold : ∀ (u : List AssetSnapshot),
      (∀ p ∈ u, p.priceChange24h = some (JSNum.num 0)) →
      u.foldl (fun m q => max m |pcQ q|) 0 = 0 := by
    intro u
    induction u with
    | nil => intro _; rfl
    | cons b u ih =>
      intro hu
      have hpb : pcQ b = 0 := by simp [pcQ, hu b (List.mem_cons_self b u)]
      simp only [List.foldl_cons, hpb, abs_zero, max_self]
      exact ih (fun r hr => hu r (List.mem_cons_of_mem b hr))
  have hM : maxAbsQ l = 0 := by
    obtain ⟨a, u, rfl⟩ := List.exists_cons_of_ne_nil h
    have hpa : pcQ a = 0 := by simp [pcQ, hzero a (List.mem_cons_self a u)]
    simp only [maxAbsQ, hpa, abs_zero]
    exact hfold u (fun r hr => hzero r (List.mem_cons_of_mem a hr))
  refine ⟨c, hc, hlen, ?_⟩
  intro i p hp
  obtain ⟨b, hb, hh, -, -⟩ := hidx i p (JSNum.num 0) hp (hzero p (List.get?_mem hp))
  refine ⟨b, hb, ?_⟩
  rw [hh, hmc, maxChange_real l h hreal, hM, jsAbsV_num, JSNum.mul_num,
    show |(0 : ℚ)| * (chartHeight / 2) = 0 by simp]
  exact JSNum.div_zero_zero 0 rfl

/-- Witness for C3 at a one-element all-zero list. -/
theorem chart_allzero_nan_w :
    ∃ c, generatePriceCharts 0 [mkSnap "Bitcoin" "BTC" 0] = Except.ok c ∧
      c.bars.length = [mkSnap "Bitcoin" "BTC" 0].length ∧
      ∀ i p, [mkSnap "Bitcoin" "BTC" 0].get? i = some p →
        ∃ b, c.bars.get? i = some b ∧ b.height = JSNum.nan :=
  chart_allzero_nan 0 _ (List.cons_ne_nil _ _)
    (by
      intro p hp
      simp only [List.mem_cons, List.not_mem_nil, or_false] at hp
      subst hp
      rfl)

/-- Claim C9: at a percent change of exactly 0, the chart renderer takes
the `>= 0` branch — css class `positive-bar` and the bar placed on the
upward side of the baseline (`barY = centerY - barHeight`) — while the
visual renderer classifies the same snapshot as `falling` with the
red-family accent color. -/
theorem zero_boundary (t : Nat) (l : List AssetSnapshot) (i : Nat)
    (p : AssetSnapshot) (hdef : ∀ q ∈ l, q.priceChange24h ≠ none)
    (hi : l.get? i = some p) (h0 : p.priceChange24h = some (JSNum.num 0)) :
    (∃ c, generatePriceCharts t l = Except.ok c ∧
      ∃ b, c.bars.get? i = some b ∧ b.barClass = "positive-bar" ∧
        b.barY = (JSNum.num centerY).sub b.height) ∧
    (∃ img, renderCryptoImage t i p = Except.ok img ∧ img.trend = "falling" ∧
      img.color = "#e74c3c") := by
  constructor
  · obtain ⟨c, hc, hmc, hlen, hidx⟩ := generatePriceCharts_ok t l hdef
    obtain ⟨b, hb, -, hclass, hy⟩ := hidx i p (JSNum.num 0) hi h0
    have hge : jsGeV (some (JSNum.num 0)) (some (JSNum.num 0)) = true := by
      rw [jsGeV_num]; simp
    refine ⟨c, hc, b, hb, ?_, ?_⟩
    · rw [hclass, if_pos hge]
    · rw [hy, if_pos hge]
  · obtain ⟨img, hok, ht, hcol, -⟩ := renderCryptoImage_ok t i p (JSNum.num 0) h0
    refine ⟨img, hok, ?_, ?_⟩
    · rw [ht, jsGtV_zero_zero]; rfl
    · rw [hcol, jsGtV_zero_zero]; rfl

/-- Witness for C9 at a one-element zero list. -/
theorem zero_boundary_w :
    (∃ c, generatePriceCharts 0 [mkSnap "Zero" "ZRO" 0] = Except.ok c ∧
      ∃ b, c.bars.get? 0 = some b ∧ b.barClass = "positive-bar" ∧
        b.barY = (JSNum.num centerY).sub b.height) ∧
    (∃ img, renderCryptoImage 0 0 (mkSnap "Zero" "ZRO" 0) = Except.ok img ∧
      img.trend = "falling" ∧ img.color = "#e74c3c") :=
  zero_boundary 0 [mkSnap "Zero" "ZRO" 0] 0 (mkSnap "Zero" "ZRO" 0)
    (by
      intro q hq
      simp only [List.mem_cons, List.not_mem_nil, or_false] at hq
      subst hq
      simp [mkSnap])
    rfl rfl

/-- Witness for C7 at the X/Y input. -/
theorem chart_scale_w :
    ∃ c, generatePriceCharts 0 xyList = Except.ok c ∧
      ∀ i p, xyList.get? i = some p →
        ∃ b, c.bars.get? i = some b ∧
          b.height = JSNum.num (|pcQ p| / maxAbsQ xyList * (chartHeight / 2)) :=
  (chart_scale 0 xyList (List.cons_ne_nil _ _)
    (by
      intro p hp
      simp only [xyList, List.mem_cons, List.not_mem_nil, or_false] at hp
      rcases hp with rfl | rfl
      · exact ⟨10, rfl⟩
      · exact ⟨-5, rfl⟩)
    (by norm_num [xyList, maxAbsQ, pcQ, mkSnap])).1

/-- Witness for the amended C4 at timestamp 0. -/
theorem renderers_empty_spec_w :
    (∃ imgs, generateCryptoImages 0 [] = Except.ok imgs ∧ imgs.length = 2 ∧
      ∀ img ∈ imgs, img.symbol = "BTC" ∧ img.project = "Crypto" ∧
        img.trend = "falling") ∧
    (∃ c, generatePriceCharts 0 [] = Except.ok c ∧ c.bars = [] ∧
      c.maxChange = JSNum.negInf) :=
  renderers_empty_spec 0

/-- Witness for C5 at the boundary value 0. -/
theorem visual_trend_boundary_w :
    ∃ img, renderCryptoImage 0 0 (mkSnap "Crypto" "BTC" 0) = Except.ok img ∧
      (img.trend = "rising" ↔ (0 : ℚ) < 0) ∧ (img.trend = "falling" ↔ (0 : ℚ) ≤ 0) :=
  visual_trend_boundary 0 0 "Crypto" "BTC" 0

/-- Witness for the amended C6 at concrete metadata. -/
theorem visual_invalid_spec_w :
    (∃ img, renderCryptoImage 0 0
        { name := "Crypto", symbol := "BTC", rank := none, marketCapRank := none
          priceChange24h := some JSNum.nan, trending := false } = Except.ok img ∧
        img.trend = "falling" ∧ img.pctText = "NaN%") ∧
    (∃ e, renderCryptoImage 0 0
        { name := "Crypto", symbol := "BTC", rank := none, marketCapRank := none
          priceChange24h := none, trending := false } = Except.error e) :=
  visual_invalid_spec 0 0 "Crypto" "BTC"

/-! ### The market snapshot builder (`fetchCryptoData`, lines 101-113) -/

theorem take_of_length_le {α : Type} (l : List α) (n : Nat) (h : l.length ≤ n) :
    l.take n = l := by
  induction l generalizing n with
  | nil => simp
  | cons a l ih =>
    cases n with
    | zero => simp at h
    | succ n =>
      rw [List.take_succ_cons, ih n (by simp only [List.length_cons] at h; omega)]

/-- Amended C8: for up to 5 raw records the builder keeps length, order,
names and symbols, assigns 1-based ranks, and keeps a supplied nonzero
percent change; but it substitutes the synthetic draw `rand i` whenever
the supplied value is falsy — absent, NaN, or (contrary to the original
claim) exactly 0. -/
theorem fetchCryptoData_spec (rand : Nat → ℚ) (coins : List RawCoin)
    (hlen : coins.length ≤ 5) :
    (fetchCryptoData rand coins).length = coins.length ∧
    ∀ i r, coins.get? i = some r →
      ∃ s, (fetchCryptoData rand coins).get? i = some s ∧
        s.name = r.name ∧ s.symbol = r.symbol ∧ s.rank = some (i + 1) ∧
        (∀ q : ℚ, q ≠ 0 → r.price_change_usd = some (JSNum.num q) →
          s.priceChange24h = some (JSNum.num q)) ∧
        ((r.price_change_usd = none ∨ r.price_change_usd = some JSNum.nan ∨
            r.price_change_usd = some (JSNum.num 0)) →
          s.priceChange24h = some (JSNum.num (rand i))) := by
  have htake : coins.take 5 = coins := take_of_length_le coins 5 hlen
  constructor
  · unfold fetchCryptoData
    rw [htake]
    simp
  · intro i r hr
    unfold fetchCryptoData
    rw [htake]
    rw [List.get?_map, enum_get?, hr]
    refine ⟨_, rfl, rfl, rfl, rfl, ?_, ?_⟩
    · intro q hq hpcu
      dsimp only
      rw [hpcu, if_pos (show jsTruthy (some (JSNum.num q)) = true by simp [jsTruthy, hq])]
    · intro hcase
      dsimp only
      rcases hcase with hc | hc | hc <;> rw [hc] <;> simp [jsTruthy]

/-- A raw record that supplies a percent change of exactly 0. -/
def zedRaw : RawCoin :=
  { name := "Zed", symbol := "ZED", market_cap_rank := none
    price_change_usd := some (JSNum.num 0) }

/-- Counterexample to claim C8: a supplied percent change of 0 is not
preserved — the `||` fallback replaces it with the synthetic draw (here
the injected value 7). -/
theorem fetch_zero_counterexample :
    ((fetchCryptoData (fun _ => 7) [zedRaw]).map fun s => s.priceChange24h) =
      [some (JSNum.num 7)] ∧ (7 : ℚ) ≠ 0 :=
  ⟨rfl, by norm_num⟩

/-- Witness for the amended C8 at a one-record list. -/
theorem fetchCryptoData_spec_w :
    (fetchCryptoData (fun _ => 7) [zedRaw]).length = [zedRaw].length :=
  (fetchCryptoData_spec (fun _ => 7) [zedRaw] (by decide)).1
